import Mathlib

set_option maxRecDepth 8000

/-!
Shallow embedding of the Ezzey backend timetable engine.

The canonical scheduler is the greedy / heuristic `generateTimetable` of the
algorithm module (together with `getBusySlots`, `isSlotBusy`,
`sortSlotsByDayAndTime` and `validateTimetable`).  The LP variant of the same
module contributes only its pre-check quantities (`totalHoursNeeded`,
`totalAvailableSlots`, `lpHoursPrecheck`).  The controller function
`saveTimetable` from `timetableController.js` is embedded as a pure state
transition on a list of persisted timetables.

JavaScript idioms are modelled explicitly:
* `x || d` on numbers is `jsOr` (`undefined`/`null`/`0` fall back to `d`);
* `x || d` on strings is `jsOrStr` (`undefined`/`null`/`""` fall back to `d`);
* object dictionaries keyed by strings are association lists;
* `Set` objects are lists with membership checks (adding an element that is
  already present is harmless for every membership query the code performs);
* `Array.prototype.sort` (required stable by the JS spec) is a stable
  insertion sort parameterised by the comparator's "may stay before" relation.
-/

/-- JS numeric truthiness default: `x || d` yields `d` when `x` is
`undefined`/`null` (modelled `none`) or `0`.  Mirrors `subject.hoursPerWeek || 3`
and `(s.subject?.hoursPerWeek || 0)`. -/
def jsOr (x : Option Nat) (d : Nat) : Nat :=
  match x with
  | none => d
  | some n => if n = 0 then d else n

/-- JS string truthiness default: `x || d` yields `d` when `x` is
`undefined`/`null` or `""`.  Mirrors `status || timetable.status`. -/
def jsOrStr (x : Option String) (d : String) : String :=
  match x with
  | none => d
  | some s => if s = "" then d else s

/-- One entry of the fixed slot grid.  The JS field `end` is a reserved word in
Lean and is modelled by the field `stop`. -/
structure TimeSlot where
  id : String
  start : String
  stop : String
  label : String
deriving DecidableEq, Repr

/-- The standard time slots of the algorithm module: 09:00-12:00, a 12:00-13:00
lunch gap, then 13:00-17:00. -/
def timeSlots : List TimeSlot :=
  [⟨"09:00", "09:00", "10:00", "morning"⟩,
   ⟨"10:00", "10:00", "11:00", "morning"⟩,
   ⟨"11:00", "11:00", "12:00", "morning"⟩,
   ⟨"13:00", "13:00", "14:00", "afternoon"⟩,
   ⟨"14:00", "14:00", "15:00", "afternoon"⟩,
   ⟨"15:00", "15:00", "16:00", "afternoon"⟩,
   ⟨"16:00", "16:00", "17:00", "evening"⟩]

/-- Working days, in iteration order. -/
def days : List String := ["Monday", "Tuesday", "Wednesday", "Thursday", "Friday"]

def tsLen : Nat := timeSlots.length

/-- `timeSlots[i].start`; out of range yields `""` (every use in the code is
guarded by the boundary check `t + blockDuration > timeSlots.length`). -/
def tsStart (i : Nat) : String := ((timeSlots[i]?).map TimeSlot.start).getD ""

/-- `timeSlots[i].end`; out of range yields `""`. -/
def tsStop (i : Nat) : String := ((timeSlots[i]?).map TimeSlot.stop).getD ""

/-- Classroom document (model file not in the extract; fields are those read by
the algorithm and controllers: `_id`, `name`, `capacity`, `type`, `isActive`). -/
structure Classroom where
  id : String
  name : String
  capacity : Nat
  type : String
  isActive : Bool
deriving DecidableEq, Repr

/-- Subject document.  `hoursPerWeek` is optional: the algorithm defends every
access with `|| 3` or `|| 0`. -/
structure Subject where
  id : String
  name : String
  code : String
  type : String
  hoursPerWeek : Option Nat
deriving DecidableEq, Repr

structure Faculty where
  id : String
  name : String
deriving DecidableEq, Repr

/-- One entry of `batch.subjects`: the populated subject/faculty pair.  Either
side can fail to populate; the algorithm checks `if (!subject || !faculty)`. -/
structure Binding where
  subject : Option Subject
  faculty : Option Faculty
deriving DecidableEq, Repr

structure Batch where
  id : String
  name : String
  strength : Nat
  subjects : List Binding
deriving DecidableEq, Repr

/-- A slot of a persisted timetable as read by `getBusySlots`; `faculty` and
`classroom` are optional because the code guards `if (slot.faculty)` and
`if (slot.classroom)`. -/
structure WeekSlot where
  day : String
  startTime : String
  endTime : String
  subject : Option String
  faculty : Option String
  classroom : Option String
  type : String
deriving DecidableEq, Repr

/-- A persisted timetable document (fields read by `getBusySlots` and
`saveTimetable`).  `weekSlots` is optional: the code guards
`if (!schedule.weekSlots) return`. -/
structure Timetable where
  id : String
  batch : String
  status : String
  weekSlots : Option (List WeekSlot)
deriving DecidableEq, Repr

/-- A slot emitted by the generator (`resultSlots.push({...})`); all fields are
always present. -/
structure RSlot where
  day : String
  startTime : String
  endTime : String
  subject : String
  faculty : String
  classroom : String
  type : String
deriving DecidableEq, Repr

/-- Lookup in a string-keyed dictionary modelled as an association list. -/
def lookupKeys (m : List (String × List String)) (k : String) : Option (List String) :=
  (m.find? (fun p => p.1 == k)).map Prod.snd

/-- `m[k]?.includes(v)` on a dictionary of string arrays. -/
def includesKey (m : List (String × List String)) (k v : String) : Bool :=
  match lookupKeys m k with
  | some l => l.contains v
  | none => false

/-- `if (!m[k]) m[k] = []; m[k].push(v)`. -/
def pushKey : List (String × List String) → String → String → List (String × List String)
  | [], k, v => [(k, [v])]
  | (k', l) :: rest, k, v =>
      if k' = k then (k', l ++ [v]) :: rest else (k', l) :: pushKey rest k v

/-- The busy maps built by `getBusySlots`: facultyId / roomId to the list of
`"day-startTime"` keys already taken by committed timetables. -/
structure BusySlots where
  faculty : List (String × List String)
  rooms : List (String × List String)
deriving DecidableEq, Repr

/-- Body of the inner `forEach` of `getBusySlots`. -/
def addSlotBusy (busy : BusySlots) (slot : WeekSlot) : BusySlots :=
  let timeKey := slot.day ++ "-" ++ slot.startTime
  let busy1 :=
    match slot.faculty with
    | some fid => { busy with faculty := pushKey busy.faculty fid timeKey }
    | none => busy
  match slot.classroom with
  | some rid => { busy1 with rooms := pushKey busy1.rooms rid timeKey }
  | none => busy1

/-- Body of the outer `forEach` of `getBusySlots`. -/
def addScheduleBusy (busy : BusySlots) (schedule : Timetable) : BusySlots :=
  match schedule.weekSlots with
  | none => busy
  | some slots => slots.foldl addSlotBusy busy

/-- `getBusySlots`: the DB query `Timetable.find({status: {$in: ['active',
'published']}})` is modelled as a filter over the given timetable list, then
the busy maps are accumulated. -/
def getBusySlots (timetables : List Timetable) : BusySlots :=
  let existingSchedules :=
    timetables.filter (fun t => t.status == "active" || t.status == "published")
  existingSchedules.foldl addScheduleBusy ⟨[], []⟩

/-- Insert for the stable sort: `le a b` means `a` may stay at or before `b`
(JS comparator result `<= 0`). -/
def insertBy (le : α → α → Bool) (x : α) : List α → List α
  | [] => [x]
  | y :: ys => if le x y then x :: y :: ys else y :: insertBy le x ys

/-- Stable sort modelling `Array.prototype.sort` with a consistent comparator
(the JS spec requires sort to be stable). -/
def sortBy (le : α → α → Bool) : List α → List α
  | [] => []
  | x :: xs => insertBy le x (sortBy le xs)

/-- `dayOrder` dictionary of `sortSlotsByDayAndTime`; the fallback value 5 is
irrelevant because every emitted slot carries a day from `days`. -/
def dayOrderOf (d : String) : Nat :=
  if d = "Monday" then 0
  else if d = "Tuesday" then 1
  else if d = "Wednesday" then 2
  else if d = "Thursday" then 3
  else if d = "Friday" then 4
  else 5

/-- Structural split of a character list at `':'`, modelling `time.split(':')`. -/
def splitColonAux : List Char → List Char → List (List Char)
  | [], acc => [acc.reverse]
  | c :: cs, acc =>
      if c = ':' then acc.reverse :: splitColonAux cs [] else splitColonAux cs (c :: acc)

/-- Decimal digit value of a character, if any. -/
def charDigit (c : Char) : Option Nat :=
  if '0' ≤ c ∧ c ≤ '9' then some (c.toNat - '0'.toNat) else none

def digitsToNatAux : List Char → Nat → Option Nat
  | [], acc => some acc
  | c :: cs, acc =>
      match charDigit c with
      | some d => digitsToNatAux cs (acc * 10 + d)
      | none => none

/-- `Number(str)` restricted to the decimal naturals the grid uses; everything
else (JS `NaN`, modelled through the `getD 0` at the call site) is `none`. -/
def parseNumber (l : List Char) : Option Nat :=
  if l.isEmpty then none else digitsToNatAux l 0

/-- `getMinutes` of `sortSlotsByDayAndTime`: `"HH:MM"` to minutes.  Malformed
strings (JS `NaN` arithmetic) default to 0; generated slots are well formed. -/
def getMinutes (time : String) : Nat :=
  match (splitColonAux time.data []).map (fun l => (parseNumber l).getD 0) with
  | [h, m] => h * 60 + m
  | _ => 0

/-- Comparator of `sortSlotsByDayAndTime`: day order first, then start time. -/
def slotLE (a b : RSlot) : Bool :=
  if dayOrderOf a.day = dayOrderOf b.day then
    decide (getMinutes a.startTime ≤ getMinutes b.startTime)
  else decide (dayOrderOf a.day < dayOrderOf b.day)

/-- `sortSlotsByDayAndTime`. -/
def sortSlotsByDayAndTime (slots : List RSlot) : List RSlot := sortBy slotLE slots

/-- `durA` of the hardest-first comparator: labs weigh their (raw) hoursPerWeek,
anything else weighs 1.  The JS comparator reads `a.subject.hoursPerWeek`
without a default; the only divergence (`undefined` arithmetic giving `NaN`)
is modelled as 0, which like `NaN` never wins a "longer block first" test. -/
def bindingDur (b : Binding) : Nat :=
  match b.subject with
  | some s => if s.type = "lab" then jsOr s.hoursPerWeek 0 else 1
  | none => 1

/-- Tie-break weight of the hardest-first comparator: `(hoursPerWeek || 0)`. -/
def bindingHours (b : Binding) : Nat :=
  match b.subject with
  | some s => jsOr s.hoursPerWeek 0
  | none => 0

/-- Hardest-first order: longer blocks first, then more hours first. -/
def subjectOrderLE (a b : Binding) : Bool :=
  if bindingDur a = bindingDur b then decide (bindingHours b ≤ bindingHours a)
  else decide (bindingDur b < bindingDur a)

/-- `const sortedSubjects = [...batch.subjects].sort(...)`. -/
def sortSubjects (l : List Binding) : List Binding := sortBy subjectOrderLE l

/-- The local usage tracker `batchBusy` of the greedy generator: faculty and
room keys `"id-day-time"` (JS `Set`s) and the per-day counter for subjects. -/
structure BatchBusy where
  faculty : List String
  rooms : List String
  subjectDaily : List (String × Nat)
deriving DecidableEq, Repr

def emptyBatchBusy : BatchBusy := ⟨[], [], []⟩

/-- `batchBusy.subjectDaily[subId + "-" + day] || 0`. -/
def dayCountOf (bb : BatchBusy) (subId day : String) : Nat :=
  ((bb.subjectDaily.find? (fun p => p.1 == subId ++ "-" ++ day)).map Prod.snd).getD 0

/-- `subjectDaily[dayKey] = (subjectDaily[dayKey] || 0) + 1`. -/
def bumpDaily : List (String × Nat) → String → List (String × Nat)
  | [], k => [(k, 1)]
  | (k', n) :: rest, k =>
      if k' = k then (k', n + 1) :: rest else (k', n) :: bumpDaily rest k

/-- `isSlotBusy` of the greedy generator: global busy maps from other batches,
then the local `batchBusy` sets. -/
def isSlotBusy (busySlots : BusySlots) (batchBusy : BatchBusy)
    (facId roomId day time : String) : Bool :=
  let timeKey := day ++ "-" ++ time
  includesKey busySlots.faculty facId timeKey ||
  includesKey busySlots.rooms roomId timeKey ||
  batchBusy.faculty.contains (facId ++ "-" ++ timeKey) ||
  batchBusy.rooms.contains (roomId ++ "-" ++ timeKey)

/-- Mutable state of one greedy run: the local busy tracker and the slots
pushed so far. -/
structure GenState where
  bb : BatchBusy
  resultSlots : List RSlot
deriving DecidableEq, Repr

/-- Faculty availability for the whole block: the code probes `isSlotBusy`
with the literal room id `'dummy'`. -/
def blockFacFree (bs : BusySlots) (bb : BatchBusy) (facId day : String) (t d : Nat) : Bool :=
  (List.range d).all (fun k => !(isSlotBusy bs bb facId "dummy" day (tsStart (t + k))))

/-- The `bestRoom` predicate: capacity must cover the batch strength and the
room (and faculty) must be free for every hour of the block. -/
def blockRoomOk (bs : BusySlots) (bb : BatchBusy) (strength : Nat)
    (facId day : String) (t d : Nat) (room : Classroom) : Bool :=
  !(decide (room.capacity < strength)) &&
  (List.range d).all (fun k => !(isSlotBusy bs bb facId room.id day (tsStart (t + k))))

/-- One start index `t` of the slot loop.  The JS `break` on
`t + blockDuration > timeSlots.length` is modelled by returning `none`; the
guard is monotone in `t`, so skipping the remaining indices and testing each
of them are the same. -/
def tryStart (bs : BusySlots) (bb : BatchBusy) (strength : Nat) (facId : String)
    (d : Nat) (roomPool : List Classroom) (day : String) (t : Nat) :
    Option (Nat × Classroom) :=
  if tsLen < t + d then none
  else if t ≤ 2 ∧ 3 < t + d then none
  else if blockFacFree bs bb facId day t d = false then none
  else (roomPool.find? (blockRoomOk bs bb strength facId day t d)).map (fun room => (t, room))

/-- One day of the day loop: the non-lab daily cap, then the first admissible
start index with its best-fit room. -/
def tryDay (bs : BusySlots) (bb : BatchBusy) (strength : Nat) (facId subId : String)
    (isLab : Bool) (d : Nat) (roomPool : List Classroom) (day : String) :
    Option (String × Nat × Classroom) :=
  if isLab = false ∧ 1 ≤ dayCountOf bb subId day then none
  else ((List.range tsLen).findSome? (tryStart bs bb strength facId d roomPool day)).map
    (fun tr => (day, tr.1, tr.2))

/-- The search for one block: first day (Monday to Friday), first start index,
first room of the pool that fits. -/
def findPlacement (bs : BusySlots) (bb : BatchBusy) (strength : Nat)
    (facId subId : String) (isLab : Bool) (d : Nat) (roomPool : List Classroom) :
    Option (String × Nat × Classroom) :=
  days.findSome? (tryDay bs bb strength facId subId isLab d roomPool)

/-- One hour of the allocation loop (`for k in 0..blockDuration`): mark the
faculty and room keys busy and push the result slot. -/
def addBlockSlot (st : GenState) (subId facId : String) (room : Classroom)
    (stype day : String) (i : Nat) : GenState :=
  let slotTime := tsStart i
  let slotEndTime := tsStop i
  let slotKey := day ++ "-" ++ slotTime
  { bb := { st.bb with
      faculty := st.bb.faculty ++ [facId ++ "-" ++ slotKey],
      rooms := st.bb.rooms ++ [room.id ++ "-" ++ slotKey] },
    resultSlots := st.resultSlots ++
      [⟨day, slotTime, slotEndTime, subId, facId, room.id, stype⟩] }

/-- The allocation loop over the slot offsets of a block. -/
def commitSlots (subId facId : String) (room : Classroom) (stype day : String)
    (t : Nat) : List Nat → GenState → GenState
  | [], st => st
  | k :: ks, st =>
      commitSlots subId facId room stype day t ks
        (addBlockSlot st subId facId room stype day (t + k))

/-- Committing a found block: allocate every hour, then bump the daily count. -/
def commitBlock (st : GenState) (subId facId : String) (room : Classroom)
    (stype day : String) (t d : Nat) : GenState :=
  let st1 := commitSlots subId facId room stype day t (List.range d) st
  { st1 with bb := { st1.bb with
      subjectDaily := bumpDaily st1.bb.subjectDaily (subId ++ "-" ++ day) } }

/-- The error thrown when a block cannot be placed. -/
def unableMsg (sname stype : String) (d : Nat) : String :=
  "Unable to schedule " ++ sname ++ " (" ++ stype ++
    "). No valid slots/rooms found for duration " ++ toString d ++ "."

/-- One block placement attempt for a subject: search, then commit or throw. -/
def placeBlock (bs : BusySlots) (strength : Nat) (lectureRooms labRooms : List Classroom)
    (subject : Subject) (faculty : Faculty) (st : GenState) : Except String GenState :=
  let hoursNeeded := jsOr subject.hoursPerWeek 3
  let isLab := subject.type == "lab"
  let blockDuration := if isLab then hoursNeeded else 1
  let roomPool := if isLab then labRooms else lectureRooms
  match findPlacement bs st.bb strength faculty.id subject.id isLab blockDuration roomPool with
  | some dtr => .ok (commitBlock st subject.id faculty.id dtr.2.2 subject.type dtr.1 dtr.2.1 blockDuration)
  | none => .error (unableMsg subject.name subject.type blockDuration)

/-- The `for (let i = 0; i < iterations; i++)` loop. -/
def placeIterations (bs : BusySlots) (strength : Nat) (lectureRooms labRooms : List Classroom)
    (subject : Subject) (faculty : Faculty) : Nat → GenState → Except String GenState
  | 0, st => .ok st
  | n + 1, st =>
      match placeBlock bs strength lectureRooms labRooms subject faculty st with
      | .error e => .error e
      | .ok st1 => placeIterations bs strength lectureRooms labRooms subject faculty n st1

/-- Per-subject scheduling: one block of `hoursNeeded` slots for a lab,
`hoursNeeded` one-hour blocks otherwise. -/
def placeSubject (bs : BusySlots) (strength : Nat) (lectureRooms labRooms : List Classroom)
    (subject : Subject) (faculty : Faculty) (st : GenState) : Except String GenState :=
  let hoursNeeded := jsOr subject.hoursPerWeek 3
  let isLab := subject.type == "lab"
  let iterations := if isLab then 1 else hoursNeeded
  placeIterations bs strength lectureRooms labRooms subject faculty iterations st

/-- The `for (const subjectEntry of sortedSubjects)` loop; bindings missing
subject or faculty are skipped (`if (!subject || !faculty) continue`). -/
def placeAll (bs : BusySlots) (strength : Nat) (lectureRooms labRooms : List Classroom) :
    List Binding → GenState → Except String GenState
  | [], st => .ok st
  | entry :: rest, st =>
      match entry.subject, entry.faculty with
      | some subject, some faculty =>
          match placeSubject bs strength lectureRooms labRooms subject faculty st with
          | .error e => .error e
          | .ok st1 => placeAll bs strength lectureRooms labRooms rest st1
      | _, _ => placeAll bs strength lectureRooms labRooms rest st

/-- Comparator of `Classroom.find({isActive: true}).sort({capacity: 1})`. -/
def capacityLE (a b : Classroom) : Bool := decide (a.capacity ≤ b.capacity)

/-- The greedy `generateTimetable`.  The DB reads are passed in: the full
classroom list (the `isActive` filter and ascending capacity sort are applied
here) and the persisted timetables feeding `getBusySlots`.  The thrown
`Error` is an `Except.error` carrying the message. -/
def generateTimetable (batch : Batch) (classrooms : List Classroom)
    (timetables : List Timetable) : Except String (List RSlot) :=
  let bs := getBusySlots timetables
  let allClassrooms := sortBy capacityLE (classrooms.filter (fun r => r.isActive))
  let lectureRooms := allClassrooms.filter (fun r => r.type == "lecture" || r.type == "seminar")
  let labRooms := allClassrooms.filter (fun r => r.type == "lab")
  let sortedSubjects := sortSubjects batch.subjects
  match placeAll bs batch.strength lectureRooms labRooms sortedSubjects ⟨emptyBatchBusy, []⟩ with
  | .error e => .error e
  | .ok st => .ok (sortSlotsByDayAndTime st.resultSlots)

/-- Accumulator of `validateTimetable`'s `forEach`. -/
structure ValidationState where
  facultyMap : List (String × List String)
  roomMap : List (String × List String)
  facultyOverlaps : List (String × String)
  classroomOverlaps : List (String × String)
deriving DecidableEq, Repr

/-- Body of `validateTimetable`'s `forEach`: record an overlap if the
`"day-startTime"` key was already seen for this faculty / room, otherwise
remember the key. -/
def validateStep (vs : ValidationState) (slot : RSlot) : ValidationState :=
  let fid := slot.faculty
  let rid := slot.classroom
  let key := slot.day ++ "-" ++ slot.startTime
  let vs1 :=
    if includesKey vs.facultyMap fid key then
      { vs with facultyOverlaps := vs.facultyOverlaps ++ [(fid, key)] }
    else { vs with facultyMap := pushKey vs.facultyMap fid key }
  if includesKey vs1.roomMap rid key then
    { vs1 with classroomOverlaps := vs1.classroomOverlaps ++ [(rid, key)] }
  else { vs1 with roomMap := pushKey vs1.roomMap rid key }

/-- Result shape of `validateTimetable`. -/
structure ValidationResult where
  isValid : Bool
  facultyOverlaps : List (String × String)
  classroomOverlaps : List (String × String)
deriving DecidableEq, Repr

/-- `validateTimetable`: duplicate detection for faculty and classroom
`(day, startTime)` keys; `isValid` iff both overlap lists stay empty. -/
def validateTimetable (weekSlots : List RSlot) : ValidationResult :=
  let final := weekSlots.foldl validateStep ⟨[], [], [], []⟩
  ⟨final.facultyOverlaps.isEmpty && final.classroomOverlaps.isEmpty,
   final.facultyOverlaps, final.classroomOverlaps⟩

/-- The LP variant's `totalHoursNeeded`:
`batch.subjects.reduce((sum, s) => sum + (s.subject?.hoursPerWeek || 0), 0)`. -/
def totalHoursNeeded (batch : Batch) : Nat :=
  batch.subjects.foldl (fun sum s => sum + jsOr (s.subject.bind Subject.hoursPerWeek) 0) 0

/-- The LP variant's `totalAvailableSlots = days.length * timeSlots.length`. -/
def totalAvailableSlots : Nat := days.length * timeSlots.length

/-- The LP variant's pre-check (the greedy variant has no counterpart): on
hours overflow it logs and returns the empty array.  `some []` models that
early return; `none` means the pre-check passes. -/
def lpHoursPrecheck (batch : Batch) : Option (List RSlot) :=
  if totalAvailableSlots < totalHoursNeeded batch then some [] else none

/-- Controller `saveTimetable` (timetableController.js, lines 150-187) as a
pure transition on the persisted store: guard on a missing id, look the
timetable up, overwrite `status` with `status || timetable.status` and save.
No validation and no conflict re-check occur on this path. -/
def saveTimetable (store : List Timetable) (timetableId : String)
    (status : Option String) : Except String (List Timetable × Timetable) :=
  if timetableId = "" then .error "Timetable ID is required"
  else
    match store.find? (fun t => t.id == timetableId) with
    | none => .error "Timetable not found"
    | some tt =>
        let updated := { tt with status := jsOrStr status tt.status }
        .ok (store.map (fun t => if t.id == timetableId then updated else t), updated)

/-- The composite key under which the generator marks a faculty hour busy. -/
def timeKeyOf (s : RSlot) : String := s.day ++ "-" ++ s.startTime

def facKeyOf (s : RSlot) : String := s.faculty ++ "-" ++ timeKeyOf s

def roomKeyOf (s : RSlot) : String := s.classroom ++ "-" ++ timeKeyOf s

/-! ### Helper lemmas -/

theorem strAppendCancelLeft {a b c : String} (h : a ++ b = a ++ c) : b = c := by
  apply String.ext
  have h2 := congrArg String.data h
  simp only [String.data_append] at h2
  exact List.append_cancel_left h2

theorem containsTrueIff {l : List String} {a : String} : l.contains a = true ↔ a ∈ l := by
  simp [List.contains, List.elem_iff]

theorem containsFalseIff {l : List String} {a : String} : l.contains a = false ↔ a ∉ l := by
  simp [List.contains, List.elem_iff]

/-- The seven grid start times are pairwise distinct. -/
theorem tsStartInjOn :
    ∀ i ∈ List.range tsLen, ∀ j ∈ List.range tsLen, tsStart i = tsStart j → i = j := by
  decide

/-- The start times of the hours of one admissible block are pairwise
distinct. -/
theorem blockStartsNodup {t d : Nat} (h : t + d ≤ tsLen) :
    ((List.range d).map fun k => tsStart (t + k)).Nodup := by
  apply List.Nodup.map_on _ (List.nodup_range d)
  intro x hx y hy hxy
  rw [List.mem_range] at hx hy
  have hx' : t + x ∈ List.range tsLen := by rw [List.mem_range]; omega
  have hy' : t + y ∈ List.range tsLen := by rw [List.mem_range]; omega
  have := tsStartInjOn _ hx' _ hy' hxy
  omega

/-- Stable insertion is a permutation. -/
theorem insertBy_perm (le : α → α → Bool) (x : α) (l : List α) :
    (insertBy le x l).Perm (x :: l) := by
  induction l with
  | nil => simp [insertBy]
  | cons y ys ih =>
      unfold insertBy
      split
      · exact List.Perm.refl _
      · exact ((ih.cons y).trans (List.Perm.swap x y ys)).symm.symm

/-- The modelled `Array.prototype.sort` is a permutation. -/
theorem sortBy_perm (le : α → α → Bool) (l : List α) : (sortBy le l).Perm l := by
  induction l with
  | nil => exact List.Perm.refl _
  | cons x xs ih => exact (insertBy_perm le x (sortBy le xs)).trans (ih.cons x)

/-! ### Soundness of the placement search -/

/-- Whatever `tryStart` returns passed the boundary check, the lunch check,
the capacity check and the per-hour busy checks. -/
theorem tryStart_sound {bs : BusySlots} {bb : BatchBusy} {strength : Nat}
    {facId : String} {d : Nat} {roomPool : List Classroom} {day : String}
    {t t' : Nat} {room : Classroom}
    (h : tryStart bs bb strength facId d roomPool day t = some (t', room)) :
    t' = t ∧ t + d ≤ tsLen ∧ ¬(t ≤ 2 ∧ 3 < t + d) ∧ room ∈ roomPool ∧
      strength ≤ room.capacity ∧
      ∀ k, k < d → isSlotBusy bs bb facId room.id day (tsStart (t + k)) = false := by
  unfold tryStart at h
  split at h
  · exact absurd h (by simp)
  next h1 =>
    split at h
    · exact absurd h (by simp)
    next h2 =>
      split at h
      · exact absurd h (by simp)
      next h3 =>
        rw [Option.map_eq_some'] at h
        obtain ⟨r, hr, hrEq⟩ := h
        have hok := List.find?_some hr
        have hmem := List.mem_of_find?_eq_some hr
        rw [Prod.mk.injEq] at hrEq
        obtain ⟨rfl, rfl⟩ := hrEq
        unfold blockRoomOk at hok
        rw [Bool.and_eq_true] at hok
        obtain ⟨hcap, hall⟩ := hok
        rw [Bool.not_eq_true', decide_eq_false_iff_not, Nat.not_lt] at hcap
        refine ⟨rfl, Nat.le_of_not_lt h1, h2, hmem, hcap, ?_⟩
        intro k hk
        have := (List.all_eq_true.mp hall) k (List.mem_range.mpr hk)
        rwa [Bool.not_eq_true'] at this

/-- Lifting `tryStart_sound` through the day loop body. -/
theorem tryDay_sound {bs : BusySlots} {bb : BatchBusy} {strength : Nat}
    {facId subId : String} {isLab : Bool} {d : Nat} {roomPool : List Classroom}
    {day0 day : String} {t : Nat} {room : Classroom}
    (h : tryDay bs bb strength facId subId isLab d roomPool day0 = some (day, t, room)) :
    day = day0 ∧ t + d ≤ tsLen ∧ ¬(t ≤ 2 ∧ 3 < t + d) ∧ room ∈ roomPool ∧
      strength ≤ room.capacity ∧
      ∀ k, k < d → isSlotBusy bs bb facId room.id day (tsStart (t + k)) = false := by
  unfold tryDay at h
  split at h
  · exact absurd h (by simp)
  · rw [Option.map_eq_some'] at h
    obtain ⟨⟨t1, r1⟩, hfs, hEq⟩ := h
    rw [Prod.mk.injEq] at hEq
    obtain ⟨rfl, hEq2⟩ := hEq
    rw [Prod.mk.injEq] at hEq2
    obtain ⟨rfl, rfl⟩ := hEq2
    obtain ⟨t0, _, htry⟩ := List.exists_of_findSome?_eq_some hfs
    obtain ⟨rfl, hb, hl, hm, hc, hbusy⟩ := tryStart_sound htry
    exact ⟨rfl, hb, hl, hm, hc, hbusy⟩

/-- Every placement the greedy search commits satisfies the boundary check,
the lunch check, the capacity check and all busy checks. -/
theorem findPlacement_sound {bs : BusySlots} {bb : BatchBusy} {strength : Nat}
    {facId subId : String} {isLab : Bool} {d : Nat} {roomPool : List Classroom}
    {day : String} {t : Nat} {room : Classroom}
    (h : findPlacement bs bb strength facId subId isLab d roomPool = some (day, t, room)) :
    t + d ≤ tsLen ∧ ¬(t ≤ 2 ∧ 3 < t + d) ∧ room ∈ roomPool ∧
      strength ≤ room.capacity ∧
      ∀ k, k < d → isSlotBusy bs bb facId room.id day (tsStart (t + k)) = false := by
  unfold findPlacement at h
  obtain ⟨day0, _, hday⟩ := List.exists_of_findSome?_eq_some h
  obtain ⟨_, hb, hl, hm, hc, hbusy⟩ := tryDay_sound hday
  exact ⟨hb, hl, hm, hc, hbusy⟩

/-! ### The run invariant of the greedy generator -/

/-- Invariant carried through one greedy run: every emitted slot is recorded
in the local busy sets, the emitted faculty / room keys are pairwise distinct,
and no emitted slot collides with the external busy maps. -/
structure RunInv (bs : BusySlots) (st : GenState) : Prop where
  facMem : ∀ s ∈ st.resultSlots, facKeyOf s ∈ st.bb.faculty
  roomMem : ∀ s ∈ st.resultSlots, roomKeyOf s ∈ st.bb.rooms
  facNodup : (st.resultSlots.map facKeyOf).Nodup
  roomNodup : (st.resultSlots.map roomKeyOf).Nodup
  facGlobal : ∀ s ∈ st.resultSlots, includesKey bs.faculty s.faculty (timeKeyOf s) = false
  roomGlobal : ∀ s ∈ st.resultSlots, includesKey bs.rooms s.classroom (timeKeyOf s) = false

/-- Unfolded form of one `isSlotBusy` check coming back negative. -/
theorem isSlotBusy_false_parts {bs : BusySlots} {bb : BatchBusy}
    {facId roomId day time : String}
    (h : isSlotBusy bs bb facId roomId day time = false) :
    includesKey bs.faculty facId (day ++ "-" ++ time) = false ∧
    includesKey bs.rooms roomId (day ++ "-" ++ time) = false ∧
    (facId ++ "-" ++ (day ++ "-" ++ time)) ∉ bb.faculty ∧
    (roomId ++ "-" ++ (day ++ "-" ++ time)) ∉ bb.rooms := by
  unfold isSlotBusy at h
  simp only [Bool.or_eq_false_iff] at h
  obtain ⟨⟨⟨h1, h2⟩, h3⟩, h4⟩ := h
  exact ⟨h1, h2, containsFalseIff.mp h3, containsFalseIff.mp h4⟩

/-- Allocating one hour of a block preserves the invariant, provided the hour
passed its `isSlotBusy` check against the current state. -/
theorem addBlockSlot_inv {bs : BusySlots} {st : GenState}
    {subId facId : String} {room : Classroom} {stype day : String} {i : Nat}
    (hInv : RunInv bs st)
    (hbusy : isSlotBusy bs st.bb facId room.id day (tsStart i) = false) :
    RunInv bs (addBlockSlot st subId facId room stype day i) := by
  obtain ⟨hgf, hgr, hlf, hlr⟩ := isSlotBusy_false_parts hbusy
  constructor
  · intro s hs
    simp only [addBlockSlot, List.mem_append, List.mem_singleton] at hs ⊢
    rcases hs with hs | hs
    · exact Or.inl (hInv.facMem s hs)
    · subst hs; exact Or.inr rfl
  · intro s hs
    simp only [addBlockSlot, List.mem_append, List.mem_singleton] at hs ⊢
    rcases hs with hs | hs
    · exact Or.inl (hInv.roomMem s hs)
    · subst hs; exact Or.inr rfl
  · simp only [addBlockSlot, List.map_append, List.map_cons, List.map_nil]
    rw [List.nodup_append]
    refine ⟨hInv.facNodup, List.nodup_singleton _, ?_⟩
    intro a ha hb
    simp only [List.mem_singleton] at hb
    subst hb
    obtain ⟨s, hsmem, hskey⟩ := List.mem_map.mp ha
    refine hlf ?_
    have h5 := hInv.facMem s hsmem
    rw [hskey] at h5
    exact h5
  · simp only [addBlockSlot, List.map_append, List.map_cons, List.map_nil]
    rw [List.nodup_append]
    refine ⟨hInv.roomNodup, List.nodup_singleton _, ?_⟩
    intro a ha hb
    simp only [List.mem_singleton] at hb
    subst hb
    obtain ⟨s, hsmem, hskey⟩ := List.mem_map.mp ha
    refine hlr ?_
    have h5 := hInv.roomMem s hsmem
    rw [hskey] at h5
    exact h5
  · intro s hs
    simp only [addBlockSlot, List.mem_append, List.mem_singleton] at hs
    rcases hs with hs | hs
    · exact hInv.facGlobal s hs
    · subst hs; exact hgf
  · intro s hs
    simp only [addBlockSlot, List.mem_append, List.mem_singleton] at hs
    rcases hs with hs | hs
    · exact hInv.roomGlobal s hs
    · subst hs; exact hgr

/-- A different hour of the same block stays free after one hour is
allocated, because its start time differs. -/
theorem isSlotBusy_addBlockSlot {bs : BusySlots} {st : GenState}
    {subId facId : String} {room : Classroom} {stype day : String} {i j : Nat}
    (hbusy : isSlotBusy bs st.bb facId room.id day (tsStart j) = false)
    (hne : tsStart j ≠ tsStart i) :
    isSlotBusy bs (addBlockSlot st subId facId room stype day i).bb
      facId room.id day (tsStart j) = false := by
  obtain ⟨hgf, hgr, hlf, hlr⟩ := isSlotBusy_false_parts hbusy
  simp only [isSlotBusy, addBlockSlot, Bool.or_eq_false_iff]
  refine ⟨⟨⟨hgf, hgr⟩, ?_⟩, ?_⟩
  · rw [containsFalseIff]
    intro hmem
    rw [List.mem_append, List.mem_singleton] at hmem
    rcases hmem with hmem | hmem
    · exact hlf hmem
    · exact hne (strAppendCancelLeft (strAppendCancelLeft hmem))
  · rw [containsFalseIff]
    intro hmem
    rw [List.mem_append, List.mem_singleton] at hmem
    rcases hmem with hmem | hmem
    · exact hlr hmem
    · exact hne (strAppendCancelLeft (strAppendCancelLeft hmem))

/-- The allocation loop preserves the invariant when every hour of the block
was checked free and the hours have pairwise distinct start times. -/
theorem commitSlots_inv {bs : BusySlots} {subId facId : String} {room : Classroom}
    {stype day : String} {t : Nat} :
    ∀ (ks : List Nat) (st : GenState), RunInv bs st →
      (∀ k ∈ ks, isSlotBusy bs st.bb facId room.id day (tsStart (t + k)) = false) →
      ((ks.map fun k => tsStart (t + k)).Nodup) →
      RunInv bs (commitSlots subId facId room stype day t ks st)
  | [], _, hInv, _, _ => hInv
  | k :: ks, st, hInv, hbusy, hnodup => by
      rw [List.map_cons, List.nodup_cons] at hnodup
      unfold commitSlots
      apply commitSlots_inv ks
      · exact addBlockSlot_inv hInv (hbusy k (List.mem_cons_self k ks))
      · intro k' hk'
        apply isSlotBusy_addBlockSlot (hbusy k' (List.mem_cons_of_mem _ hk'))
        intro heq
        exact hnodup.1 (heq ▸ List.mem_map_of_mem _ hk')
      · exact hnodup.2

/-- The invariant ignores `subjectDaily`, so rewriting it is harmless. -/
theorem runInv_set_daily {bs : BusySlots} {st : GenState} {sd : List (String × Nat)}
    (h : RunInv bs st) :
    RunInv bs ⟨⟨st.bb.faculty, st.bb.rooms, sd⟩, st.resultSlots⟩ :=
  ⟨h.facMem, h.roomMem, h.facNodup, h.roomNodup, h.facGlobal, h.roomGlobal⟩

/-- Committing a block found by the search preserves the invariant. -/
theorem commitBlock_inv {bs : BusySlots} {st : GenState} {subId facId : String}
    {room : Classroom} {stype day : String} {t d : Nat}
    (hInv : RunInv bs st) (hfit : t + d ≤ tsLen)
    (hbusy : ∀ k, k < d → isSlotBusy bs st.bb facId room.id day (tsStart (t + k)) = false) :
    RunInv bs (commitBlock st subId facId room stype day t d) := by
  have h1 : RunInv bs (commitSlots subId facId room stype day t (List.range d) st) := by
    apply commitSlots_inv
    · exact hInv
    · intro k hk; exact hbusy k (List.mem_range.mp hk)
    · exact blockStartsNodup hfit
  exact runInv_set_daily h1

/-- One block placement preserves the invariant. -/
theorem placeBlock_inv {bs : BusySlots} {strength : Nat}
    {lectureRooms labRooms : List Classroom} {subject : Subject} {faculty : Faculty}
    {st st' : GenState} (hInv : RunInv bs st)
    (h : placeBlock bs strength lectureRooms labRooms subject faculty st = .ok st') :
    RunInv bs st' := by
  simp only [placeBlock] at h
  split at h
  next dtr hfind =>
    obtain ⟨day, t, room⟩ := dtr
    obtain ⟨hfit, _, _, _, hbusy⟩ := findPlacement_sound hfind
    injection h with h
    subst h
    exact commitBlock_inv hInv hfit hbusy
  next => exact absurd h (by simp)

/-- The iteration loop preserves the invariant. -/
theorem placeIterations_inv {bs : BusySlots} {strength : Nat}
    {lectureRooms labRooms : List Classroom} {subject : Subject} {faculty : Faculty} :
    ∀ (n : Nat) (st st' : GenState), RunInv bs st →
      placeIterations bs strength lectureRooms labRooms subject faculty n st = .ok st' →
      RunInv bs st'
  | 0, _, _, hInv, h => by cases h; exact hInv
  | n + 1, st, st', hInv, h => by
      unfold placeIterations at h
      split at h
      · exact absurd h (by simp)
      next st1 hpb =>
        exact placeIterations_inv n st1 st' (placeBlock_inv hInv hpb) h

/-- Scheduling one subject preserves the invariant. -/
theorem placeSubject_inv {bs : BusySlots} {strength : Nat}
    {lectureRooms labRooms : List Classroom} {subject : Subject} {faculty : Faculty}
    {st st' : GenState} (hInv : RunInv bs st)
    (h : placeSubject bs strength lectureRooms labRooms subject faculty st = .ok st') :
    RunInv bs st' := by
  simp only [placeSubject] at h
  exact placeIterations_inv _ _ _ hInv h

/-- The subject loop preserves the invariant. -/
theorem placeAll_inv {bs : BusySlots} {strength : Nat}
    {lectureRooms labRooms : List Classroom} :
    ∀ (l : List Binding) (st st' : GenState), RunInv bs st →
      placeAll bs strength lectureRooms labRooms l st = .ok st' → RunInv bs st'
  | [], _, _, hInv, h => by cases h; exact hInv
  | entry :: rest, st, st', hInv, h => by
      unfold placeAll at h
      split at h
      · split at h
        · exact absurd h (by simp)
        next st1 hps =>
          exact placeAll_inv rest st1 st' (placeSubject_inv hInv hps) h
      all_goals exact placeAll_inv rest st st' hInv h

/-- Any schedule the greedy run returns satisfies the invariant's visible
consequences: pairwise distinct faculty / room keys and no collision with the
busy maps of the committed timetables. -/
theorem generate_ok_invariant {batch : Batch} {rooms : List Classroom}
    {tts : List Timetable} {slots : List RSlot}
    (h : generateTimetable batch rooms tts = .ok slots) :
    (slots.map facKeyOf).Nodup ∧ (slots.map roomKeyOf).Nodup ∧
      ∀ s ∈ slots,
        includesKey (getBusySlots tts).faculty s.faculty (timeKeyOf s) = false ∧
        includesKey (getBusySlots tts).rooms s.classroom (timeKeyOf s) = false := by
  simp only [generateTimetable] at h
  split at h
  · exact absurd h (by simp)
  next st hpa =>
    injection h with h
    subst h
    have hInv : RunInv (getBusySlots tts) st := by
      apply placeAll_inv _ _ _ _ hpa
      exact ⟨by simp, by simp, by simp, by simp, by simp, by simp⟩
    have hperm : (sortSlotsByDayAndTime st.resultSlots).Perm st.resultSlots :=
      sortBy_perm _ _
    refine ⟨?_, ?_, ?_⟩
    · exact ((hperm.map facKeyOf).symm).nodup hInv.facNodup
    · exact ((hperm.map roomKeyOf).symm).nodup hInv.roomNodup
    · intro s hs
      exact ⟨hInv.facGlobal s (hperm.mem_iff.mp hs),
             hInv.roomGlobal s (hperm.mem_iff.mp hs)⟩

/-! ### Specification of the validator's duplicate scan -/

theorem includesKey_nil (k' v' : String) : includesKey [] k' v' = false := rfl

/-- Head unfolding of the dictionary membership test. -/
theorem includesKey_cons (k0 : String) (l : List String)
    (rest : List (String × List String)) (k' v' : String) :
    includesKey ((k0, l) :: rest) k' v' =
      if k0 = k' then l.contains v' else includesKey rest k' v' := by
  simp only [includesKey, lookupKeys, List.find?]
  by_cases h : k0 = k'
  · subst h; simp
  · have hb : (k0 == k') = false := beq_eq_false_iff_ne.mpr h
    simp [hb, h]

/-- `pushKey` adds exactly the pushed pair to the membership relation. -/
theorem includesKey_pushKey (m : List (String × List String)) (k v k' v' : String) :
    includesKey (pushKey m k v) k' v' = true ↔
      includesKey m k' v' = true ∨ (k' = k ∧ v' = v) := by
  induction m with
  | nil =>
      rw [pushKey, includesKey_cons]
      by_cases hk : k = k'
      · subst hk
        simp [containsTrueIff, includesKey_nil]
      · simp [hk, includesKey_nil, Ne.symm hk]
  | cons p rest ih =>
      obtain ⟨k0, l⟩ := p
      by_cases h0 : k0 = k
      · subst h0
        rw [pushKey, if_pos rfl, includesKey_cons, includesKey_cons]
        by_cases hk : k0 = k'
        · subst hk
          simp only [if_pos rfl]
          simp [containsTrueIff]
        · simp only [if_neg hk]
          simp [Ne.symm hk]
      · rw [pushKey, if_neg h0, includesKey_cons, includesKey_cons]
        by_cases hk : k0 = k'
        · subst hk
          simp only [if_pos rfl]
          have : ¬(k0 = k) := h0
          simp [this]
        · simp only [if_neg hk]
          exact ih

/-- Faculty-map projection of one validator step. -/
theorem validateStep_facMap (vs : ValidationState) (slot : RSlot) :
    (validateStep vs slot).facultyMap =
      if includesKey vs.facultyMap slot.faculty (slot.day ++ "-" ++ slot.startTime) = true
      then vs.facultyMap
      else pushKey vs.facultyMap slot.faculty (slot.day ++ "-" ++ slot.startTime) := by
  by_cases h1 : includesKey vs.facultyMap slot.faculty (slot.day ++ "-" ++ slot.startTime) = true
  · by_cases h2 : includesKey vs.roomMap slot.classroom (slot.day ++ "-" ++ slot.startTime) = true
    · simp [validateStep, h1, h2]
    · simp [validateStep, h1, h2]
  · by_cases h2 : includesKey vs.roomMap slot.classroom (slot.day ++ "-" ++ slot.startTime) = true
    · simp [validateStep, h1, h2]
    · simp [validateStep, h1, h2]

/-- Faculty-overlap projection of one validator step. -/
theorem validateStep_facOv (vs : ValidationState) (slot : RSlot) :
    (validateStep vs slot).facultyOverlaps =
      if includesKey vs.facultyMap slot.faculty (slot.day ++ "-" ++ slot.startTime) = true
      then vs.facultyOverlaps ++ [(slot.faculty, slot.day ++ "-" ++ slot.startTime)]
      else vs.facultyOverlaps := by
  by_cases h1 : includesKey vs.facultyMap slot.faculty (slot.day ++ "-" ++ slot.startTime) = true
  · by_cases h2 : includesKey vs.roomMap slot.classroom (slot.day ++ "-" ++ slot.startTime) = true
    · simp [validateStep, h1, h2]
    · simp [validateStep, h1, h2]
  · by_cases h2 : includesKey vs.roomMap slot.classroom (slot.day ++ "-" ++ slot.startTime) = true
    · simp [validateStep, h1, h2]
    · simp [validateStep, h1, h2]

/-- Room-map projection of one validator step. -/
theorem validateStep_roomMap (vs : ValidationState) (slot : RSlot) :
    (validateStep vs slot).roomMap =
      if includesKey vs.roomMap slot.classroom (slot.day ++ "-" ++ slot.startTime) = true
      then vs.roomMap
      else pushKey vs.roomMap slot.classroom (slot.day ++ "-" ++ slot.startTime) := by
  by_cases h1 : includesKey vs.facultyMap slot.faculty (slot.day ++ "-" ++ slot.startTime) = true
  · by_cases h2 : includesKey vs.roomMap slot.classroom (slot.day ++ "-" ++ slot.startTime) = true
    · simp [validateStep, h1, h2]
    · simp [validateStep, h1, h2]
  · by_cases h2 : includesKey vs.roomMap slot.classroom (slot.day ++ "-" ++ slot.startTime) = true
    · simp [validateStep, h1, h2]
    · simp [validateStep, h1, h2]

/-- Room-overlap projection of one validator step. -/
theorem validateStep_roomOv (vs : ValidationState) (slot : RSlot) :
    (validateStep vs slot).classroomOverlaps =
      if includesKey vs.roomMap slot.classroom (slot.day ++ "-" ++ slot.startTime) = true
      then vs.classroomOverlaps ++ [(slot.classroom, slot.day ++ "-" ++ slot.startTime)]
      else vs.classroomOverlaps := by
  by_cases h1 : includesKey vs.facultyMap slot.faculty (slot.day ++ "-" ++ slot.startTime) = true
  · by_cases h2 : includesKey vs.roomMap slot.classroom (slot.day ++ "-" ++ slot.startTime) = true
    · simp [validateStep, h1, h2]
    · simp [validateStep, h1, h2]
  · by_cases h2 : includesKey vs.roomMap slot.classroom (slot.day ++ "-" ++ slot.startTime) = true
    · simp [validateStep, h1, h2]
    · simp [validateStep, h1, h2]

/-- The faculty-overlap list of the validator fold stays empty exactly when it
started empty and the faculty `(id, "day-start")` pairs of the scanned slots
are pairwise distinct and fresh for the accumulated map. -/
theorem validate_fold_fac :
    ∀ (ws : List RSlot) (vs : ValidationState) (seen : List (String × String)),
      (∀ k v, includesKey vs.facultyMap k v = true ↔ (k, v) ∈ seen) →
      ((ws.foldl validateStep vs).facultyOverlaps = [] ↔
        vs.facultyOverlaps = [] ∧
        (ws.map fun s => (s.faculty, s.day ++ "-" ++ s.startTime)).Nodup ∧
        ∀ s ∈ ws, (s.faculty, s.day ++ "-" ++ s.startTime) ∉ seen)
  | [], vs, seen, hmap => by simp
  | s :: ws, vs, seen, hmap => by
      rw [List.foldl_cons]
      by_cases hf : includesKey vs.facultyMap s.faculty (s.day ++ "-" ++ s.startTime) = true
      · have hseen : (s.faculty, s.day ++ "-" ++ s.startTime) ∈ seen := (hmap _ _).mp hf
        have hmap' : ∀ k v, includesKey (validateStep vs s).facultyMap k v = true ↔ (k, v) ∈ seen := by
          rw [validateStep_facMap, if_pos hf]; exact hmap
        rw [validate_fold_fac ws (validateStep vs s) seen hmap']
        rw [validateStep_facOv, if_pos hf]
        constructor
        · rintro ⟨hov, -, -⟩
          simp at hov
        · rintro ⟨-, -, hfresh⟩
          exact absurd hseen (hfresh s (List.mem_cons_self s ws))
      · have hfresh0 : (s.faculty, s.day ++ "-" ++ s.startTime) ∉ seen :=
          fun hmem => hf ((hmap _ _).mpr hmem)
        have hmap' : ∀ k v, includesKey (validateStep vs s).facultyMap k v = true ↔
            (k, v) ∈ (s.faculty, s.day ++ "-" ++ s.startTime) :: seen := by
          intro k v
          rw [validateStep_facMap, if_neg hf, includesKey_pushKey]
          rw [hmap k v, List.mem_cons, Prod.mk.injEq]
          tauto
        rw [validate_fold_fac ws (validateStep vs s) _ hmap']
        rw [validateStep_facOv, if_neg hf]
        simp only [List.map_cons, List.nodup_cons, List.mem_cons]
        constructor
        · rintro ⟨hov, hnd, hfresh⟩
          refine ⟨hov, ⟨?_, hnd⟩, ?_⟩
          · intro hmem
            obtain ⟨x, hx, hpx⟩ := List.mem_map.mp hmem
            exact (hfresh x hx) (Or.inl hpx)
          · intro x hx
            rcases hx with rfl | hx
            · exact hfresh0
            · intro hmem
              exact (hfresh x hx) (Or.inr hmem)
        · rintro ⟨hov, ⟨hhead, hnd⟩, hfresh⟩
          refine ⟨hov, hnd, ?_⟩
          intro x hx hmem
          rcases hmem with heq | hmem'
          · exact hhead (heq ▸ List.mem_map_of_mem _ hx)
          · exact (hfresh x (Or.inr hx)) hmem'

/-- Room-side analogue of `validate_fold_fac`. -/
theorem validate_fold_room :
    ∀ (ws : List RSlot) (vs : ValidationState) (seen : List (String × String)),
      (∀ k v, includesKey vs.roomMap k v = true ↔ (k, v) ∈ seen) →
      ((ws.foldl validateStep vs).classroomOverlaps = [] ↔
        vs.classroomOverlaps = [] ∧
        (ws.map fun s => (s.classroom, s.day ++ "-" ++ s.startTime)).Nodup ∧
        ∀ s ∈ ws, (s.classroom, s.day ++ "-" ++ s.startTime) ∉ seen)
  | [], vs, seen, hmap => by simp
  | s :: ws, vs, seen, hmap => by
      rw [List.foldl_cons]
      by_cases hf : includesKey vs.roomMap s.classroom (s.day ++ "-" ++ s.startTime) = true
      · have hseen : (s.classroom, s.day ++ "-" ++ s.startTime) ∈ seen := (hmap _ _).mp hf
        have hmap' : ∀ k v, includesKey (validateStep vs s).roomMap k v = true ↔ (k, v) ∈ seen := by
          rw [validateStep_roomMap, if_pos hf]; exact hmap
        rw [validate_fold_room ws (validateStep vs s) seen hmap']
        rw [validateStep_roomOv, if_pos hf]
        constructor
        · rintro ⟨hov, -, -⟩
          simp at hov
        · rintro ⟨-, -, hfresh⟩
          exact absurd hseen (hfresh s (List.mem_cons_self s ws))
      · have hfresh0 : (s.classroom, s.day ++ "-" ++ s.startTime) ∉ seen :=
          fun hmem => hf ((hmap _ _).mpr hmem)
        have hmap' : ∀ k v, includesKey (validateStep vs s).roomMap k v = true ↔
            (k, v) ∈ (s.classroom, s.day ++ "-" ++ s.startTime) :: seen := by
          intro k v
          rw [validateStep_roomMap, if_neg hf, includesKey_pushKey]
          rw [hmap k v, List.mem_cons, Prod.mk.injEq]
          tauto
        rw [validate_fold_room ws (validateStep vs s) _ hmap']
        rw [validateStep_roomOv, if_neg hf]
        simp only [List.map_cons, List.nodup_cons, List.mem_cons]
        constructor
        · rintro ⟨hov, hnd, hfresh⟩
          refine ⟨hov, ⟨?_, hnd⟩, ?_⟩
          · intro hmem
            obtain ⟨x, hx, hpx⟩ := List.mem_map.mp hmem
            exact (hfresh x hx) (Or.inl hpx)
          · intro x hx
            rcases hx with rfl | hx
            · exact hfresh0
            · intro hmem
              exact (hfresh x hx) (Or.inr hmem)
        · rintro ⟨hov, ⟨hhead, hnd⟩, hfresh⟩
          refine ⟨hov, hnd, ?_⟩
          intro x hx hmem
          rcases hmem with heq | hmem'
          · exact hhead (heq ▸ List.mem_map_of_mem _ hx)
          · exact (hfresh x (Or.inr hx)) hmem'

/-! ### Failure analysis of the greedy generator -/

/-- When no room of the pool seats the batch, the search finds nothing: the
`bestRoom` predicate rejects every room on its capacity test alone. -/
theorem findPlacement_none_of_capacity {bs : BusySlots} {bb : BatchBusy} {strength : Nat}
    {facId subId : String} {isLab : Bool} {d : Nat} {roomPool : List Classroom}
    (h : ∀ r ∈ roomPool, r.capacity < strength) :
    findPlacement bs bb strength facId subId isLab d roomPool = none := by
  have hroom : ∀ day t, roomPool.find? (blockRoomOk bs bb strength facId day t d) = none := by
    intro day t
    rw [List.find?_eq_none]
    intro r hr
    simp [blockRoomOk, h r hr]
  have htryStart : ∀ day t, tryStart bs bb strength facId d roomPool day t = none := by
    intro day t
    unfold tryStart
    split
    · rfl
    split
    · rfl
    split
    · rfl
    rw [hroom day t]
    rfl
  have htryDay : ∀ day, tryDay bs bb strength facId subId isLab d roomPool day = none := by
    intro day
    unfold tryDay
    split
    · rfl
    · rw [List.findSome?_eq_none_iff.mpr (fun t _ => htryStart day t)]
      rfl
  unfold findPlacement
  exact List.findSome?_eq_none_iff.mpr (fun day _ => htryDay day)

/-- With no adequate room in either pool, one placement attempt throws. -/
theorem placeBlock_error_of_capacity {bs : BusySlots} {strength : Nat}
    {lectureRooms labRooms : List Classroom} {subject : Subject} {faculty : Faculty}
    {st : GenState}
    (hlec : ∀ r ∈ lectureRooms, r.capacity < strength)
    (hlab : ∀ r ∈ labRooms, r.capacity < strength) :
    placeBlock bs strength lectureRooms labRooms subject faculty st =
      .error (unableMsg subject.name subject.type
        (if subject.type == "lab" then jsOr subject.hoursPerWeek 3 else 1)) := by
  simp only [placeBlock]
  rw [findPlacement_none_of_capacity]
  intro r hr
  by_cases hl : (subject.type == "lab") = true
  · rw [if_pos hl] at hr; exact hlab r hr
  · rw [if_neg hl] at hr; exact hlec r hr

/-- The iteration loop throws on its first attempt. -/
theorem placeIterations_error_of_capacity {bs : BusySlots} {strength : Nat}
    {lectureRooms labRooms : List Classroom} {subject : Subject} {faculty : Faculty}
    {st : GenState} {n : Nat} (hn : n ≠ 0)
    (hlec : ∀ r ∈ lectureRooms, r.capacity < strength)
    (hlab : ∀ r ∈ labRooms, r.capacity < strength) :
    placeIterations bs strength lectureRooms labRooms subject faculty n st =
      .error (unableMsg subject.name subject.type
        (if subject.type == "lab" then jsOr subject.hoursPerWeek 3 else 1)) := by
  cases n with
  | zero => exact absurd rfl hn
  | succ m =>
      unfold placeIterations
      rw [placeBlock_error_of_capacity hlec hlab]

/-- `hoursPerWeek || 3` is always positive. -/
theorem jsOr_three_pos (x : Option Nat) : jsOr x 3 ≠ 0 := by
  unfold jsOr
  cases x with
  | none => simp
  | some n =>
      by_cases h : n = 0
      · simp [h]
      · simp [h]

/-- Scheduling one subject throws when no room of its pool seats the batch. -/
theorem placeSubject_error_of_capacity {bs : BusySlots} {strength : Nat}
    {lectureRooms labRooms : List Classroom} {subject : Subject} {faculty : Faculty}
    {st : GenState}
    (hlec : ∀ r ∈ lectureRooms, r.capacity < strength)
    (hlab : ∀ r ∈ labRooms, r.capacity < strength) :
    placeSubject bs strength lectureRooms labRooms subject faculty st =
      .error (unableMsg subject.name subject.type
        (if subject.type == "lab" then jsOr subject.hoursPerWeek 3 else 1)) := by
  simp only [placeSubject]
  apply placeIterations_error_of_capacity _ hlec hlab
  by_cases hl : (subject.type == "lab") = true
  · rw [if_pos hl]; exact Nat.one_ne_zero
  · rw [if_neg hl]; exact jsOr_three_pos subject.hoursPerWeek

/-! ### The shape of every greedy failure -/

/-- Every error the embedded greedy generator can produce is the in-loop
`Unable to schedule ...` throw; no other error kind exists on this path. -/
def isUnableMsg (e : String) : Prop :=
  ∃ sname stype d, e = unableMsg sname stype d

theorem placeBlock_error_shape {bs : BusySlots} {strength : Nat}
    {lectureRooms labRooms : List Classroom} {subject : Subject} {faculty : Faculty}
    {st : GenState} {e : String}
    (h : placeBlock bs strength lectureRooms labRooms subject faculty st = .error e) :
    isUnableMsg e := by
  simp only [placeBlock] at h
  split at h
  · exact absurd h (by simp)
  · injection h with h
    exact ⟨subject.name, subject.type, _, h.symm⟩

theorem placeIterations_error_shape {bs : BusySlots} {strength : Nat}
    {lectureRooms labRooms : List Classroom} {subject : Subject} {faculty : Faculty} :
    ∀ (n : Nat) (st : GenState) (e : String),
      placeIterations bs strength lectureRooms labRooms subject faculty n st = .error e →
      isUnableMsg e
  | 0, _, _, h => by simp [placeIterations] at h
  | n + 1, st, e, h => by
      unfold placeIterations at h
      split at h
      next e0 hpb =>
        injection h with h
        subst h
        exact placeBlock_error_shape hpb
      next st1 hpb =>
        exact placeIterations_error_shape n st1 e h

theorem placeSubject_error_shape {bs : BusySlots} {strength : Nat}
    {lectureRooms labRooms : List Classroom} {subject : Subject} {faculty : Faculty}
    {st : GenState} {e : String}
    (h : placeSubject bs strength lectureRooms labRooms subject faculty st = .error e) :
    isUnableMsg e := by
  simp only [placeSubject] at h
  exact placeIterations_error_shape _ _ _ h

theorem placeAll_error_shape {bs : BusySlots} {strength : Nat}
    {lectureRooms labRooms : List Classroom} :
    ∀ (l : List Binding) (st : GenState) (e : String),
      placeAll bs strength lectureRooms labRooms l st = .error e → isUnableMsg e
  | [], _, _, h => by simp [placeAll] at h
  | entry :: rest, st, e, h => by
      unfold placeAll at h
      split at h
      · split at h
        next e0 hps =>
          injection h with h
          subst h
          exact placeSubject_error_shape hps
        next st1 hps =>
          exact placeAll_error_shape rest st1 e h
      all_goals exact placeAll_error_shape rest st e h

/-- Elements of the sorted active-room list come from the input list. -/
theorem mem_sorted_active {rooms : List Classroom} {r : Classroom}
    (h : r ∈ sortBy capacityLE (rooms.filter (fun r => r.isActive))) : r ∈ rooms :=
  (List.mem_filter.mp
    ((sortBy_perm capacityLE (rooms.filter (fun r => r.isActive))).mem_iff.mp h)).1

/-- Greedy capacity behaviour: for a batch with a single populated binding,
if no room at all seats the batch, the run throws the in-loop error instead
of falling back to the largest room of the pool. -/
theorem capacity_failure_single {batch : Batch} {rooms : List Classroom}
    {tts : List Timetable} {s : Subject} {f : Faculty}
    (hsub : batch.subjects = [⟨some s, some f⟩])
    (hcap : rooms.all (fun r => decide (r.capacity < batch.strength)) = true) :
    generateTimetable batch rooms tts =
      .error (unableMsg s.name s.type
        (if s.type == "lab" then jsOr s.hoursPerWeek 3 else 1)) := by
  have hcap' : ∀ r ∈ rooms, r.capacity < batch.strength := fun r hr =>
    of_decide_eq_true (List.all_eq_true.mp hcap r hr)
  have hlec : ∀ r ∈ (sortBy capacityLE (rooms.filter (fun r => r.isActive))).filter
      (fun r => r.type == "lecture" || r.type == "seminar"), r.capacity < batch.strength :=
    fun r hr => hcap' r (mem_sorted_active (List.mem_filter.mp hr).1)
  have hlab : ∀ r ∈ (sortBy capacityLE (rooms.filter (fun r => r.isActive))).filter
      (fun r => r.type == "lab"), r.capacity < batch.strength :=
    fun r hr => hcap' r (mem_sorted_active (List.mem_filter.mp hr).1)
  simp only [generateTimetable, hsub]
  have hsort : sortSubjects [(⟨some s, some f⟩ : Binding)] = [⟨some s, some f⟩] := rfl
  rw [hsort]
  simp only [placeAll]
  rw [placeSubject_error_of_capacity hlec hlab]

/-- Any error the greedy generator returns is the in-loop throw. -/
theorem generate_error_shape {batch : Batch} {rooms : List Classroom}
    {tts : List Timetable} {e : String}
    (h : generateTimetable batch rooms tts = .error e) : isUnableMsg e := by
  simp only [generateTimetable] at h
  split at h
  next e0 hpa =>
    injection h with h
    subst h
    exact placeAll_error_shape _ _ _ hpa
  next st hpa => exact absurd h (by simp)

/-! ### Concrete scenarios used by the claim witnesses -/

def facSmith : Faculty := ⟨"F1", "Dr. Smith"⟩

def labSubjectA : Subject := ⟨"S1", "LAB", "LAB1", "lab", some 4⟩

def labRoomA : Classroom := ⟨"R1", "Lab Room", 30, "lab", true⟩

def labBatchA : Batch := ⟨"B1", "CSE-A", 30, [⟨some labSubjectA, some facSmith⟩]⟩

/-- One emitted hour of the Monday lab block of `labBatchA`. -/
def labSlotA (s e : String) : RSlot := ⟨"Monday", s, e, "S1", "F1", "R1", "lab"⟩

def mathSubject : Subject := ⟨"T1", "MATH", "M1", "theory", some 2⟩

def hallRoom : Classroom := ⟨"R2", "Hall", 40, "lecture", true⟩

def mathBatch : Batch := ⟨"B2", "CSE-B", 30, [⟨some mathSubject, some facSmith⟩]⟩

def mathSlot (day : String) : RSlot := ⟨day, "09:00", "10:00", "T1", "F1", "R2", "theory"⟩

/-- A committed slot blocking `facSmith` on Monday 09:00. -/
def extSlotA : WeekSlot := ⟨"Monday", "09:00", "10:00", some "X", some "F1", some "RX", "theory"⟩

def extTimetableA : Timetable := ⟨"TT0", "B9", "active", some [extSlotA]⟩

def phySubject : Subject := ⟨"T2", "PHY", "P1", "theory", some 1⟩

def phyBatch : Batch := ⟨"B3", "CSE-C", 30, [⟨some phySubject, some facSmith⟩]⟩

def phySlot : RSlot := ⟨"Monday", "10:00", "11:00", "T2", "F1", "R2", "theory"⟩

/-- Theory subject with a configurable (possibly missing) hoursPerWeek. -/
def mystSubject (h : Option Nat) : Subject := ⟨"Z1", "MYST", "Z", "theory", h⟩

def mystBatch (h : Option Nat) : Batch := ⟨"B4", "CSE-D", 30, [⟨some (mystSubject h), some facSmith⟩]⟩

def mystSlot (day : String) : RSlot := ⟨day, "09:00", "10:00", "Z1", "F1", "R2", "theory"⟩

/-- A lab whose weekly hours alone exceed the 35 usable slots. -/
def bigLabSubject : Subject := ⟨"S9", "BigLab", "BL", "lab", some 36⟩

def bigLabBatch : Batch := ⟨"B5", "CSE-E", 30, [⟨some bigLabSubject, some facSmith⟩]⟩

def algoSubject : Subject := ⟨"S3", "Algo", "A1", "theory", some 3⟩

def roomR40 : Classroom := ⟨"R40", "Small Hall", 40, "lecture", true⟩

def roomR50 : Classroom := ⟨"R50", "Mid Hall", 50, "lecture", true⟩

/-- Strength 60 with only the cap-40 and cap-50 lecture rooms available. -/
def capBatch : Batch := ⟨"B6", "CSE-F", 60, [⟨some algoSubject, some facSmith⟩]⟩

/-- A placement sitting inside the 12:00-13:00 lunch gap. -/
def lunchGapSlot : RSlot := ⟨"Monday", "12:00", "13:00", "S1", "F1", "R1", "theory"⟩

def slotActiveA : WeekSlot := ⟨"Monday", "09:00", "10:00", some "SA", some "F1", some "RA", "theory"⟩

def slotDraftB : WeekSlot := ⟨"Monday", "09:00", "10:00", some "SB", some "F1", some "RB", "theory"⟩

def ttActiveA : Timetable := ⟨"TT1", "BA", "active", some [slotActiveA]⟩

def ttDraftB : Timetable := ⟨"TT2", "BB", "draft", some [slotDraftB]⟩

/-! ### Claim theorems -/

/-- Claim C1: in every schedule returned by the greedy `generateTimetable`,
the list of `(facultyId, day, startTime)` triples of the placements has no
duplicate, and likewise the list of `(classroomId, day, startTime)` triples:
each such triple appears in at most one placement. -/
theorem c1_no_double_booking {batch : Batch} {rooms : List Classroom}
    {tts : List Timetable} {slots : List RSlot}
    (h : generateTimetable batch rooms tts = .ok slots) :
    (slots.map fun s => (s.faculty, s.day, s.startTime)).Nodup ∧
    (slots.map fun s => (s.classroom, s.day, s.startTime)).Nodup := by
  obtain ⟨hfn, hrn, -⟩ := generate_ok_invariant h
  constructor
  · have hkey : slots.map facKeyOf =
        (slots.map fun s => (s.faculty, s.day, s.startTime)).map
          (fun x => x.1 ++ "-" ++ (x.2.1 ++ "-" ++ x.2.2)) := by
      rw [List.map_map]
      rfl
    rw [hkey] at hfn
    exact List.Nodup.of_map _ hfn
  · have hkey : slots.map roomKeyOf =
        (slots.map fun s => (s.classroom, s.day, s.startTime)).map
          (fun x => x.1 ++ "-" ++ (x.2.1 ++ "-" ++ x.2.2)) := by
      rw [List.map_map]
      rfl
    rw [hkey] at hrn
    exact List.Nodup.of_map _ hrn

/-- Witness for C1 on a concrete two-placement run. -/
theorem c1_no_double_booking_witness :
    generateTimetable mathBatch [hallRoom] [] = .ok [mathSlot "Monday", mathSlot "Tuesday"] ∧
    ([mathSlot "Monday", mathSlot "Tuesday"].map
      (fun s => (s.faculty, s.day, s.startTime))).Nodup := by
  refine ⟨by rfl, ?_⟩
  exact (c1_no_double_booking (show generateTimetable mathBatch [hallRoom] [] =
    .ok [mathSlot "Monday", mathSlot "Tuesday"] from rfl)).1

/-- Claim C2: no placement emitted by the greedy `generateTimetable` carries a
`(facultyId, day, startTime)` or `(classroomId, day, startTime)` pair present
in the busy maps that `getBusySlots` builds from the active / published
timetables. -/
theorem c2_external_conflict_freedom {batch : Batch} {rooms : List Classroom}
    {tts : List Timetable} {slots : List RSlot}
    (h : generateTimetable batch rooms tts = .ok slots) :
    ∀ s ∈ slots,
      includesKey (getBusySlots tts).faculty s.faculty (s.day ++ "-" ++ s.startTime) = false ∧
      includesKey (getBusySlots tts).rooms s.classroom (s.day ++ "-" ++ s.startTime) = false := by
  obtain ⟨-, -, hg⟩ := generate_ok_invariant h
  exact hg

/-- Witness for C2: with faculty `F1` externally busy on Monday 09:00 the run
places Monday 10:00, and that placement does not collide. -/
theorem c2_external_conflict_freedom_witness :
    generateTimetable phyBatch [hallRoom] [extTimetableA] = .ok [phySlot] ∧
    includesKey (getBusySlots [extTimetableA]).faculty "F1" "Monday-10:00" = false := by
  refine ⟨by rfl, ?_⟩
  exact ((c2_external_conflict_freedom (show generateTimetable phyBatch [hallRoom]
    [extTimetableA] = .ok [phySlot] from rfl)) phySlot (by simp)).1

/-- Claim C6: every block the greedy search commits at start index `t` with
duration `d` satisfies `t + d ≤ timeSlots.length` and does not straddle the
lunch boundary (`t ≤ 2` with `t + d > 3`).  `findPlacement` is the single
decision point from which `placeBlock` commits blocks. -/
theorem c6_lunch_boundary {bs : BusySlots} {bb : BatchBusy} {strength : Nat}
    {facId subId : String} {isLab : Bool} {d : Nat} {roomPool : List Classroom}
    {day : String} {t : Nat} {room : Classroom}
    (h : findPlacement bs bb strength facId subId isLab d roomPool = some (day, t, room)) :
    t + d ≤ tsLen ∧ ¬(t ≤ 2 ∧ 3 < t + d) :=
  ⟨(findPlacement_sound h).1, (findPlacement_sound h).2.1⟩

/-- Witness for C6 on the 4-hour lab search, which commits Monday `t = 3`. -/
theorem c6_lunch_boundary_witness :
    findPlacement (getBusySlots []) emptyBatchBusy 30 "F1" "S1" true 4 [labRoomA] =
      some ("Monday", 3, labRoomA) ∧
    (3 + 4 ≤ tsLen ∧ ¬(3 ≤ 2 ∧ 3 < 3 + 4)) := by
  refine ⟨by rfl, ?_⟩
  exact c6_lunch_boundary (show findPlacement (getBusySlots []) emptyBatchBusy 30 "F1" "S1"
    true 4 [labRoomA] = some ("Monday", 3, labRoomA) from rfl)

/-- Claim C7: a single 4-hour lab for a batch of 30 with one lab room of
capacity 30 and no external conflicts is scheduled as exactly four Monday
placements 13:00-17:00 (start index 3), every earlier start crossing lunch. -/
theorem c7_lab_block_afternoon :
    generateTimetable labBatchA [labRoomA] [] =
      .ok [labSlotA "13:00" "14:00", labSlotA "14:00" "15:00",
           labSlotA "15:00" "16:00", labSlotA "16:00" "17:00"] := by rfl

/-- Claim C8: the greedy generation is deterministic; the embedding is a pure
function of the batch, the classroom list and the committed timetables, and
all its iteration orders (binding sort, days, slots, rooms) are fixed, so two
runs on identical inputs give identical results. -/
theorem c8_determinism (batch : Batch) (rooms : List Classroom) (tts : List Timetable) :
    generateTimetable batch rooms tts = generateTimetable batch rooms tts := rfl

/-- Claim C10: a binding whose subject has `hoursPerWeek` missing or zero is
not rejected; the `|| 3` default silently schedules 3 one-hour placements. -/
theorem c10_hours_default_three :
    generateTimetable (mystBatch none) [hallRoom] [] =
      .ok [mystSlot "Monday", mystSlot "Tuesday", mystSlot "Wednesday"] ∧
    generateTimetable (mystBatch (some 0)) [hallRoom] [] =
      .ok [mystSlot "Monday", mystSlot "Tuesday", mystSlot "Wednesday"] ∧
    jsOr none 3 = 3 ∧ jsOr (some 0) 3 = 3 :=
  ⟨rfl, rfl, rfl, rfl⟩

/-- Counterexample to claim C3 as stated: with strength 60 and only lecture
rooms of capacity 40 and 50, the greedy run does not place the subject in the
cap-50 room with a warning; it fails with the in-loop error. -/
theorem c3_capacity_fallback_counterexample :
    generateTimetable capBatch [roomR40, roomR50] [] =
      .error (unableMsg "Algo" "theory" 1) := by rfl

/-- Claim C3 (amended): the greedy scheduler has no capacity fallback.  For a
batch with one populated binding, when every available room seats fewer
students than the batch strength the subject is unplaceable and the run
throws `Unable to schedule ...`; no placement and no warning are produced.
(The LP variant in the same file does fall back to the largest room, but only
logs a console warning that is not attached to the result.) -/
theorem c3_amended_no_capacity_fallback {batch : Batch} {rooms : List Classroom}
    {tts : List Timetable} {s : Subject} {f : Faculty}
    (hsub : batch.subjects = [⟨some s, some f⟩])
    (hcap : rooms.all (fun r => decide (r.capacity < batch.strength)) = true) :
    generateTimetable batch rooms tts =
      .error (unableMsg s.name s.type
        (if s.type == "lab" then jsOr s.hoursPerWeek 3 else 1)) :=
  capacity_failure_single hsub hcap

/-- Witness for amended C3 at strength 60 with rooms of capacity 40 and 50. -/
theorem c3_amended_no_capacity_fallback_witness :
    capBatch.subjects = [⟨some algoSubject, some facSmith⟩] ∧
    [roomR40, roomR50].all (fun r => decide (r.capacity < capBatch.strength)) = true ∧
    generateTimetable capBatch [roomR40, roomR50] [] =
      .error (unableMsg "Algo" "theory" 1) := by
  refine ⟨rfl, by decide, ?_⟩
  exact @c3_amended_no_capacity_fallback capBatch [roomR40, roomR50] [] algoSubject facSmith
    rfl (by decide)

/-- Counterexample to claim C4 as stated: a batch whose total hours (36)
exceed the 35 usable weekly slots is not rejected pre-solver with a
`HoursExceedCapacity` kind by the greedy generator; the placement loop runs
and throws its generic in-loop error.  The LP variant does pre-check the sum
but returns the empty list rather than an error kind. -/
theorem c4_hours_overflow_counterexample :
    totalHoursNeeded bigLabBatch = 36 ∧ totalAvailableSlots = 35 ∧
    generateTimetable bigLabBatch [labRoomA] [] = .error (unableMsg "BigLab" "lab" 36) ∧
    lpHoursPrecheck bigLabBatch = some [] :=
  ⟨rfl, rfl, rfl, rfl⟩

/-- Claim C4 (amended): the greedy generator has no hours pre-check and no
`HoursExceedCapacity` error kind; every failure it reports — including on
hour-overflow inputs — is the placement loop's `Unable to schedule ...`
throw, and a thrown run returns no placements at all. -/
theorem c4_amended_error_is_unplaceable {batch : Batch} {rooms : List Classroom}
    {tts : List Timetable} {e : String}
    (h : generateTimetable batch rooms tts = .error e) : isUnableMsg e :=
  generate_error_shape h

/-- Witness for amended C4 on the 36-hour lab batch. -/
theorem c4_amended_error_is_unplaceable_witness :
    generateTimetable bigLabBatch [labRoomA] [] = .error (unableMsg "BigLab" "lab" 36) ∧
    isUnableMsg (unableMsg "BigLab" "lab" 36) := by
  refine ⟨by rfl, ?_⟩
  exact c4_amended_error_is_unplaceable (show generateTimetable bigLabBatch [labRoomA] [] =
    .error (unableMsg "BigLab" "lab" 36) from rfl)

/-- Counterexample to claim C5 as stated: `validateTimetable` accepts a slot
sitting inside the 12:00-13:00 lunch gap (a start time that exists on no grid
slot), so it does not re-check lunch-boundary compliance; it also receives no
subject hour targets to re-check. -/
theorem c5_validator_counterexample :
    validateTimetable [lunchGapSlot] = ⟨true, [], []⟩ ∧
    timeSlots.all (fun ts => ts.start != "12:00") = true ∧
    lunchGapSlot.startTime = "12:00" :=
  ⟨rfl, rfl, rfl⟩

/-- Claim C5 (amended): `validateTimetable` checks exactly faculty and room
overlap duplicates: `isValid` is true if and only if the faculty
`(id, day-start)` pairs and the classroom `(id, day-start)` pairs of the
given slots are each duplicate-free.  No hours or lunch re-check exists. -/
theorem c5_amended_validator_overlaps_only (weekSlots : List RSlot) :
    (validateTimetable weekSlots).isValid = true ↔
      (weekSlots.map fun s => (s.faculty, s.day ++ "-" ++ s.startTime)).Nodup ∧
      (weekSlots.map fun s => (s.classroom, s.day ++ "-" ++ s.startTime)).Nodup := by
  have hfac := validate_fold_fac weekSlots ⟨[], [], [], []⟩ []
    (by intro k v; simp [includesKey_nil])
  have hroom := validate_fold_room weekSlots ⟨[], [], [], []⟩ []
    (by intro k v; simp [includesKey_nil])
  simp only [validateTimetable]
  rw [Bool.and_eq_true, List.isEmpty_iff, List.isEmpty_iff]
  rw [hfac, hroom]
  simp

/-- Counterexample to claim C9 as stated: `saveTimetable` publishes a draft
whose only slot collides with an already-active timetable in the latest
conflict index; the status change is committed with no re-validation. -/
theorem c9_save_without_revalidation_counterexample :
    saveTimetable [ttActiveA, ttDraftB] "TT2" (some "published") =
      .ok ([ttActiveA, ⟨"TT2", "BB", "published", some [slotDraftB]⟩],
           ⟨"TT2", "BB", "published", some [slotDraftB]⟩) ∧
    includesKey (getBusySlots [ttActiveA, ttDraftB]).faculty "F1" "Monday-09:00" = true ∧
    slotDraftB.faculty = some "F1" ∧ slotDraftB.day = "Monday" ∧
    slotDraftB.startTime = "09:00" ∧ ttDraftB.status = "draft" :=
  ⟨rfl, rfl, rfl, rfl, rfl, rfl⟩

/-- Claim C9 (amended): `saveTimetable` persists the requested status
transition unconditionally.  The commit outcome (which document, which final
status) is invariant under arbitrary rewriting of every stored timetable's
`weekSlots`, so no conflict state — and hence no validation result — can
influence whether a draft-to-active/published transition is persisted. -/
theorem c9_amended_save_ignores_conflicts
    (f : String → Option (List WeekSlot) → Option (List WeekSlot))
    (store : List Timetable) (timetableId : String) (status : Option String) :
    Except.map (fun p : List Timetable × Timetable => (p.2.id, p.2.status))
        (saveTimetable (store.map fun t => { t with weekSlots := f t.id t.weekSlots })
          timetableId status) =
      Except.map (fun p : List Timetable × Timetable => (p.2.id, p.2.status))
        (saveTimetable store timetableId status) := by
  unfold saveTimetable
  by_cases h0 : timetableId = ""
  · rw [if_pos h0, if_pos h0]
  · rw [if_neg h0, if_neg h0, List.find?_map]
    have hcomp : ((fun t : Timetable => t.id == timetableId) ∘
        fun t : Timetable => { t with weekSlots := f t.id t.weekSlots }) =
        fun t : Timetable => t.id == timetableId := rfl
    rw [hcomp]
    cases hfind : store.find? (fun t : Timetable => t.id == timetableId) with
    | none => rfl
    | some tt => rfl
